import Mathlib

/-!
Verification of the LoopOptimizer media tool's loop-point scoring and
transition-selection engine against its natural-language specification.

The definitions below are a shallow embedding of the JavaScript source:

* `calculateSimilarityMatrix` — `LoopAnalyzer._calculateSimilarityMatrix`
  (src/core/media-analyzer.js)
* `findLoopCandidates` / `algorithmCandidates` / `suggestionToCandidate` —
  `LoopAnalyzer._findLoopCandidates` (src/core/media-analyzer.js)
* `scoreCandidate` / `rankLoopCandidates` — `LoopAnalyzer._rankLoopCandidates`
  (src/core/media-analyzer.js)
* `calculateOptimalTransition` — `TransitionEngine.calculateOptimalTransition`
  (transition engine module)
* `blendTwoFrames` / `createBlendedFrames` — frame blending service
* `sampleFrames` — `GeminiIntegration._sampleFrames`
* `seamlessScore` — the quality-metric assembly in `LoopOptimizer.processMedia`

JavaScript numbers are modelled as exact rationals (`ℚ`), frame indices as
integers, and the one fallible operation (`createBlendedFrames`, which throws
on insufficient frames) as `Except`.
-/

/-! ## Similarity matrix (`_calculateSimilarityMatrix`) -/

/-- Value written into cell `(i, j)` of the similarity matrix.  The source
loop writes `matrix[i][j] = 1` on the diagonal and, for `i ≠ j`, writes
`similarity = 1 - Math.abs(i - j) / frameCount` into both `matrix[i][j]`
and `matrix[j][i]`; each cell is written exactly once, with this value. -/
def simEntry (frameCount i j : ℕ) : ℚ :=
  if i = j then 1 else 1 - (((i : ℤ) - (j : ℤ)).natAbs : ℚ) / (frameCount : ℚ)

/-- The similarity matrix built by `_calculateSimilarityMatrix` for a frame
buffer of `frameCount` frames: a `frameCount × frameCount` matrix whose
cells hold `simEntry`.  An empty frame buffer yields the empty matrix,
as in the source. -/
def calculateSimilarityMatrix (frameCount : ℕ) : List (List ℚ) :=
  (List.range frameCount).map fun i =>
    (List.range frameCount).map fun j => simEntry frameCount i j

/-- Read entry `(i, j)` of a matrix represented as a list of rows
(out-of-range reads default to `0`, mirroring the guard behaviour of the
source, which only compares out-of-range `undefined` entries against a
positive threshold). -/
def matrixEntry (m : List (List ℚ)) (i j : ℕ) : ℚ :=
  (m.getD i []).getD j 0

lemma getD_map_range {α : Type} (f : ℕ → α) (n i : ℕ) (d : α) (hi : i < n) :
    ((List.range n).map f).getD i d = f i := by
  simp [List.getD_eq_getElem?_getD, List.getElem?_map, List.getElem?_range, hi]

lemma matrixEntry_calculateSimilarityMatrix {n i j : ℕ} (hi : i < n) (hj : j < n) :
    matrixEntry (calculateSimilarityMatrix n) i j = simEntry n i j := by
  unfold matrixEntry calculateSimilarityMatrix
  rw [getD_map_range _ _ _ _ hi, getD_map_range _ _ _ _ hj]

lemma simEntry_symm (n i j : ℕ) : simEntry n i j = simEntry n j i := by
  unfold simEntry
  rcases eq_or_ne i j with h | h
  · simp [h]
  · rw [if_neg h, if_neg (Ne.symm h)]
    have : ((i : ℤ) - (j : ℤ)).natAbs = ((j : ℤ) - (i : ℤ)).natAbs := by omega
    rw [this]

lemma simEntry_bounds {n i j : ℕ} (hi : i < n) (hj : j < n) :
    0 ≤ simEntry n i j ∧ simEntry n i j ≤ 1 := by
  unfold simEntry
  rcases eq_or_ne i j with h | h
  · simp [h]
  · rw [if_neg h]
    have hn : (0 : ℚ) < (n : ℚ) := by
      have : 0 < n := Nat.pos_of_ne_zero (by omega)
      exact_mod_cast this
    have habs : (((i : ℤ) - (j : ℤ)).natAbs : ℚ) ≤ (n : ℚ) := by
      have : ((i : ℤ) - (j : ℤ)).natAbs ≤ n := by omega
      exact_mod_cast this
    have habs0 : (0 : ℚ) ≤ (((i : ℤ) - (j : ℤ)).natAbs : ℚ) := by positivity
    constructor
    · have : (((i : ℤ) - (j : ℤ)).natAbs : ℚ) / (n : ℚ) ≤ 1 :=
        (div_le_one hn).mpr habs
      linarith
    · have : 0 ≤ (((i : ℤ) - (j : ℤ)).natAbs : ℚ) / (n : ℚ) := by positivity
      linarith

/-- C1: the similarity matrix produced by `_calculateSimilarityMatrix` is a
square `frameCount × frameCount` matrix, symmetric (`matrix[i][j] ==
matrix[j][i]`), with `matrix[i][i] == 1`, and every entry lies in `[0, 1]`. -/
theorem similarityMatrix_invariants (n i j : ℕ) (hi : i < n) (hj : j < n) :
    (calculateSimilarityMatrix n).length = n ∧
    (∀ row ∈ calculateSimilarityMatrix n, row.length = n) ∧
    matrixEntry (calculateSimilarityMatrix n) i j
      = matrixEntry (calculateSimilarityMatrix n) j i ∧
    matrixEntry (calculateSimilarityMatrix n) i i = 1 ∧
    0 ≤ matrixEntry (calculateSimilarityMatrix n) i j ∧
    matrixEntry (calculateSimilarityMatrix n) i j ≤ 1 := by
  refine ⟨by simp [calculateSimilarityMatrix], ?_, ?_, ?_, ?_, ?_⟩
  · intro row hrow
    simp only [calculateSimilarityMatrix, List.mem_map] at hrow
    obtain ⟨a, _, rfl⟩ := hrow
    simp
  · rw [matrixEntry_calculateSimilarityMatrix hi hj,
      matrixEntry_calculateSimilarityMatrix hj hi, simEntry_symm]
  · rw [matrixEntry_calculateSimilarityMatrix hi hi]
    simp [simEntry]
  · rw [matrixEntry_calculateSimilarityMatrix hi hj]
    exact (simEntry_bounds hi hj).1
  · rw [matrixEntry_calculateSimilarityMatrix hi hj]
    exact (simEntry_bounds hi hj).2

/-- Witness for C1: the invariants evaluated on the concrete 3-frame matrix
at indices 1 and 2 (entry value `1 - 1/3 = 2/3`). -/
theorem similarityMatrix_invariants_witness :
    (calculateSimilarityMatrix 3).length = 3 ∧
    (∀ row ∈ calculateSimilarityMatrix 3, row.length = 3) ∧
    matrixEntry (calculateSimilarityMatrix 3) 1 2
      = matrixEntry (calculateSimilarityMatrix 3) 2 1 ∧
    matrixEntry (calculateSimilarityMatrix 3) 1 1 = 1 ∧
    0 ≤ matrixEntry (calculateSimilarityMatrix 3) 1 2 ∧
    matrixEntry (calculateSimilarityMatrix 3) 1 2 ≤ 1 :=
  similarityMatrix_invariants 3 1 2 (by decide) (by decide)

/-! ## Loop-candidate generation (`_findLoopCandidates`) -/

/-- An advisory (Gemini) suggestion as consumed by `_findLoopCandidates`:
frame interval, confidence and an optional transition type. -/
structure GeminiSuggestion where
  startFrame : ℤ
  endFrame : ℤ
  confidence : ℚ
  transitionType : Option String
deriving DecidableEq

/-- A loop candidate as produced by `_findLoopCandidates`. -/
structure LoopCandidate where
  startFrame : ℤ
  endFrame : ℤ
  startTime : ℚ
  endTime : ℚ
  duration : ℚ
  similarity : ℚ
  source : String
  transitionType : String
deriving DecidableEq

/-- Mapping of one advisory suggestion to a candidate, exactly as pushed by
the `geminiAnalysis.suggestions.forEach` loop of `_findLoopCandidates`
(`frameRate` is the hard-coded `30`; no validation of any kind is applied). -/
def suggestionToCandidate (s : GeminiSuggestion) : LoopCandidate :=
  { startFrame := s.startFrame
    endFrame := s.endFrame
    startTime := (s.startFrame : ℚ) / 30
    endTime := (s.endFrame : ℚ) / 30
    duration := ((s.endFrame : ℚ) - (s.startFrame : ℚ)) / 30
    similarity := s.confidence
    source := "gemini"
    transitionType := s.transitionType.getD "cut" }

/-- The algorithm-sourced candidate pushed for the frame pair
`(startFrame, endFrame)` whose similarity passed the threshold. -/
def algoCand (m : List (List ℚ)) (startFrame endFrame : ℕ) : LoopCandidate :=
  { startFrame := (startFrame : ℤ)
    endFrame := (endFrame : ℤ)
    startTime := (startFrame : ℚ) / 30
    endTime := (endFrame : ℚ) / 30
    duration := ((endFrame : ℚ) - (startFrame : ℚ)) / 30
    similarity := matrixEntry m startFrame endFrame
    source := "algorithm"
    transitionType :=
      if 0.9 < matrixEntry m startFrame endFrame then "cut" else "crossfade" }

/-- The candidates produced by the nested loops of `_findLoopCandidates`:
`frameRate = 30`, `minFrames = Math.floor(30 * 2) = 60`,
`maxFrames = Math.floor(30 * 15) = 450`;
`startFrame` ranges over `0 ≤ startFrame < frameCount - minFrames` and
`endFrame` over `startFrame + minFrames ≤ endFrame <
min(frameCount, startFrame + maxFrames)`; a candidate is pushed exactly
when `matrix[startFrame][endFrame] > 0.8`. -/
def algorithmCandidates (m : List (List ℚ)) : List LoopCandidate :=
  (List.range (m.length - 60)).flatMap fun startFrame =>
    (List.range' (startFrame + 60)
        (min m.length (startFrame + 450) - (startFrame + 60))).filterMap
      fun endFrame =>
        if (0.8 : ℚ) < matrixEntry m startFrame endFrame then
          some (algoCand m startFrame endFrame)
        else none

/-- `_findLoopCandidates`: the advisory suggestions are pushed first (with no
duration validation), then the algorithm candidates from the similarity
matrix.  The function is total — it never throws and never retries; a
matrix with fewer than 2 samples simply contributes no algorithm
candidates. -/
def findLoopCandidates (m : List (List ℚ)) (suggestions : List GeminiSuggestion) :
    List LoopCandidate :=
  suggestions.map suggestionToCandidate ++
    (if 0 < m.length then algorithmCandidates m else [])

lemma mem_algorithmCandidates {m : List (List ℚ)} {c : LoopCandidate}
    (hc : c ∈ algorithmCandidates m) :
    ∃ startFrame endFrame : ℕ,
      startFrame < m.length - 60 ∧
      startFrame + 60 ≤ endFrame ∧
      endFrame < min m.length (startFrame + 450) ∧
      (0.8 : ℚ) < matrixEntry m startFrame endFrame ∧
      c = algoCand m startFrame endFrame := by
  simp only [algorithmCandidates, List.mem_flatMap, List.mem_filterMap,
    List.mem_range, List.mem_range'_1] at hc
  obtain ⟨startFrame, hsf, endFrame, ⟨hef1, hef2⟩, hif⟩ := hc
  by_cases h : (0.8 : ℚ) < matrixEntry m startFrame endFrame
  · rw [if_pos h] at hif
    exact ⟨startFrame, endFrame, hsf, hef1, by omega, h, (Option.some_inj.mp hif).symm⟩
  · rw [if_neg h] at hif
    exact absurd hif (Option.some_ne_none _).symm

lemma suggestionToCandidate_source (s : GeminiSuggestion) :
    (suggestionToCandidate s).source = "gemini" := rfl

lemma algoCand_source (m : List (List ℚ)) (sf ef : ℕ) :
    (algoCand m sf ef).source = "algorithm" := rfl

/-- Introduction form: the candidate for a pair that satisfies the loop
bounds and the threshold is among the generator's output. -/
lemma algoCand_mem_findLoopCandidates {m : List (List ℚ)} {sf ef : ℕ}
    (suggestions : List GeminiSuggestion)
    (h1 : sf < m.length - 60) (h2 : sf + 60 ≤ ef)
    (h3 : ef < min m.length (sf + 450))
    (h4 : (0.8 : ℚ) < matrixEntry m sf ef) :
    algoCand m sf ef ∈ findLoopCandidates m suggestions := by
  unfold findLoopCandidates
  refine List.mem_append.mpr (Or.inr ?_)
  have hpos : 0 < m.length := by omega
  rw [if_pos hpos]
  unfold algorithmCandidates
  refine List.mem_flatMap.mpr ⟨sf, List.mem_range.mpr h1, ?_⟩
  refine List.mem_filterMap.mpr ⟨ef, ?_, ?_⟩
  · exact List.mem_range'_1.mpr ⟨by omega, by omega⟩
  · rw [if_pos h4]

/-- Concrete advisory suggestion whose loop is one frame long
(duration `1/30` s, far below every duration bound in play). -/
def shortSuggestion : GeminiSuggestion :=
  { startFrame := 0, endFrame := 1, confidence := 0.92,
    transitionType := some "crossfade" }

/-- Concrete advisory suggestion used to exercise the sub-2-sample path. -/
def plainSuggestion : GeminiSuggestion :=
  { startFrame := 0, endFrame := 90, confidence := 0.92, transitionType := none }

/-- A 61-row matrix (rows beyond the first are irrelevant and left empty;
absent entries read as `0`) whose single above-threshold pair is `(0, 60)`
with similarity `0.9`. -/
def highPairMatrix : List (List ℚ) :=
  (List.replicate 60 (0 : ℚ) ++ [9 / 10]) :: List.replicate 60 ([] : List ℚ)

/-- Same shape, but the best pair `(0, 60)` has similarity `0.78` — below the
`0.8` threshold yet above the relaxation floor `0.8 - 3 × 0.05 = 0.65`
claimed by the specification. -/
def lowPairMatrix : List (List ℚ) :=
  (List.replicate 60 (0 : ℚ) ++ [39 / 50]) :: List.replicate 60 ([] : List ℚ)

lemma highPairMatrix_length : highPairMatrix.length = 61 := by
  simp [highPairMatrix]

lemma lowPairMatrix_length : lowPairMatrix.length = 61 := by
  simp [lowPairMatrix]

lemma matrixEntry_highPairMatrix : matrixEntry highPairMatrix 0 60 = 9 / 10 := by
  simp [matrixEntry, highPairMatrix, List.getD_eq_getElem?_getD,
    List.getElem?_append_right, List.length_replicate]

lemma matrixEntry_lowPairMatrix : matrixEntry lowPairMatrix 0 60 = 39 / 50 := by
  simp [matrixEntry, lowPairMatrix, List.getD_eq_getElem?_getD,
    List.getElem?_append_right, List.length_replicate]

/-- Counterexample to C2: `_findLoopCandidates` emits the advisory
suggestion `shortSuggestion` as a candidate of duration `1/30` s even
though that duration violates the duration bounds (the generator's own
hard-coded `2 ≤ duration ≤ 15`, and a fortiori any configured
`minLoopDuration ≥ 2`): advisory suggestions are never validated,
dropped, or clamped. -/
theorem advisoryCandidate_notDropped_cex :
    (findLoopCandidates [] [shortSuggestion]).map LoopCandidate.duration
      = [1 / 30] ∧
    ¬ ((2 : ℚ) ≤ 1 / 30 ∧ (1 : ℚ) / 30 ≤ 15) := by
  constructor
  · simp [findLoopCandidates, suggestionToCandidate, shortSuggestion]
  · intro h
    have := h.1
    norm_num at this

/-- C2 (amended): every algorithm-sourced candidate emitted by
`_findLoopCandidates` has duration in the hard-coded interval
`[2 s, 15 s)` (the configured options are not consulted), while every
advisory suggestion is mapped into the output unconditionally — with no
duration validation of any kind. -/
theorem candidateGenerator_durationBounds (m : List (List ℚ))
    (suggestions : List GeminiSuggestion) :
    (∃ rest, findLoopCandidates m suggestions
        = suggestions.map suggestionToCandidate ++ rest) ∧
    ∀ c ∈ findLoopCandidates m suggestions, c.source = "algorithm" →
      2 ≤ c.duration ∧ c.duration < 15 := by
  constructor
  · exact ⟨_, rfl⟩
  · intro c hc hsrc
    unfold findLoopCandidates at hc
    rcases List.mem_append.mp hc with hmem | hmem
    · obtain ⟨s, _, rfl⟩ := List.mem_map.mp hmem
      rw [suggestionToCandidate_source s] at hsrc
      simp at hsrc
    · have halg : c ∈ algorithmCandidates m := by
        by_cases h : 0 < m.length
        · rwa [if_pos h] at hmem
        · rw [if_neg h] at hmem
          exact absurd hmem (List.not_mem_nil c)
      obtain ⟨sf, ef, _, hef1, hef2, _, rfl⟩ := mem_algorithmCandidates halg
      have h60 : (sf : ℚ) + 60 ≤ (ef : ℚ) := by exact_mod_cast hef1
      have h450 : (ef : ℚ) < (sf : ℚ) + 450 := by
        have : ef < sf + 450 := lt_of_lt_of_le hef2 (min_le_right _ _)
        exact_mod_cast this
      constructor
      · show (2 : ℚ) ≤ ((ef : ℚ) - (sf : ℚ)) / 30
        linarith
      · show ((ef : ℚ) - (sf : ℚ)) / 30 < 15
        linarith

/-- Witness for C2 (amended), on the concrete matrix `highPairMatrix`: the
algorithm candidate at frames `(0, 60)` (duration exactly 2 s) satisfies
the hard-coded bounds. -/
theorem candidateGenerator_durationBounds_witness :
    2 ≤ (algoCand highPairMatrix 0 60).duration ∧
    (algoCand highPairMatrix 0 60).duration < 15 :=
  (candidateGenerator_durationBounds highPairMatrix []).2
    (algoCand highPairMatrix 0 60)
    (algoCand_mem_findLoopCandidates []
      (by rw [highPairMatrix_length]; decide)
      (by omega)
      (by rw [highPairMatrix_length]; decide)
      (by rw [matrixEntry_highPairMatrix]; norm_num))
    (algoCand_source highPairMatrix 0 60)

lemma algorithmCandidates_lowPairMatrix : algorithmCandidates lowPairMatrix = [] := by
  refine List.eq_nil_iff_forall_not_mem.mpr fun c hc => ?_
  obtain ⟨sf, ef, h1, h2, h3, h4, _⟩ := mem_algorithmCandidates hc
  rw [lowPairMatrix_length] at h1 h3
  have hsf : sf = 0 := by omega
  have hef : ef = 60 := by omega
  subst hsf
  subst hef
  rw [matrixEntry_lowPairMatrix] at h4
  norm_num at h4

/-- Counterexample to C6: with a 1×1 matrix (fewer than 2 samples) the
generator returns the ordinary empty candidate list — no
`InsufficientData` failure; and with `lowPairMatrix`, whose best pair
(`0.78`) lies strictly above the claimed relaxation floor
`0.8 - 3 × 0.05 = 0.65`, the generator still returns the empty list: the
threshold is never lowered and no `NoViableLoopFound` error exists
(indeed the source function is total — it has no failure path at all,
which is why the embedding returns a plain list). -/
theorem candidateGenerator_noFailurePath_cex :
    findLoopCandidates [[1]] [] = [] ∧
    findLoopCandidates lowPairMatrix [] = [] ∧
    matrixEntry lowPairMatrix 0 60 = 39 / 50 ∧
    (0.8 : ℚ) - 3 * 0.05 < 39 / 50 := by
  refine ⟨?_, ?_, matrixEntry_lowPairMatrix, by norm_num⟩
  · simp [findLoopCandidates, algorithmCandidates]
  · simp [findLoopCandidates, algorithmCandidates_lowPairMatrix]

/-- C6 (amended): `_findLoopCandidates` never retries, never relaxes the
threshold, and never signals an error: a matrix with fewer than 2 samples
simply yields exactly the advisory-derived candidates (the empty list when
there are none), and every algorithm candidate passed the fixed `> 0.8`
similarity threshold. -/
theorem candidateGenerator_noRelaxation (m : List (List ℚ))
    (suggestions : List GeminiSuggestion) :
    (m.length < 2 →
      findLoopCandidates m suggestions = suggestions.map suggestionToCandidate) ∧
    ∀ c ∈ findLoopCandidates m suggestions, c.source = "algorithm" →
      (0.8 : ℚ) < c.similarity := by
  constructor
  · intro hlen
    have halg : algorithmCandidates m = [] := by
      have h0 : m.length - 60 = 0 := by omega
      simp [algorithmCandidates, h0]
    unfold findLoopCandidates
    rw [halg]
    by_cases h : 0 < m.length
    · rw [if_pos h, List.append_nil]
    · rw [if_neg h, List.append_nil]
  · intro c hc hsrc
    unfold findLoopCandidates at hc
    rcases List.mem_append.mp hc with hmem | hmem
    · obtain ⟨s, _, rfl⟩ := List.mem_map.mp hmem
      rw [suggestionToCandidate_source s] at hsrc
      simp at hsrc
    · have halg : c ∈ algorithmCandidates m := by
        by_cases h : 0 < m.length
        · rwa [if_pos h] at hmem
        · rw [if_neg h] at hmem
          exact absurd hmem (List.not_mem_nil c)
      obtain ⟨sf, ef, _, _, _, hsim, rfl⟩ := mem_algorithmCandidates halg
      exact hsim

/-- Witness for C6 (amended): the 1×1-matrix path returns exactly the mapped
advisory candidate, and the concrete algorithm candidate of
`highPairMatrix` indeed passed the fixed `0.8` threshold. -/
theorem candidateGenerator_noRelaxation_witness :
    findLoopCandidates [[1]] [plainSuggestion]
      = [suggestionToCandidate plainSuggestion] ∧
    (0.8 : ℚ) < (algoCand highPairMatrix 0 60).similarity :=
  ⟨(candidateGenerator_noRelaxation [[1]] [plainSuggestion]).1 (by simp),
   (candidateGenerator_noRelaxation highPairMatrix []).2
     (algoCand highPairMatrix 0 60)
     (algoCand_mem_findLoopCandidates []
       (by rw [highPairMatrix_length]; decide)
       (by omega)
       (by rw [highPairMatrix_length]; decide)
       (by rw [matrixEntry_highPairMatrix]; norm_num))
     (algoCand_source highPairMatrix 0 60)⟩

/-! ## Candidate ranking (`_rankLoopCandidates`) -/

/-- A scored candidate: the spread `{...candidate, score}` of the source —
all original fields plus `score`. -/
structure ScoredCandidate extends LoopCandidate where
  score : ℚ
deriving DecidableEq

/-- The scoring step of `_rankLoopCandidates`:
`durationScore = 1 - Math.abs(candidate.duration - 5) / 10` (the ideal
duration 5 s and divisor 10 are hard-coded; note: no truncation of a
negative `durationScore` at 0),
`sourceBoost = 0.1` for source `gemini` else `0`,
`score = similarity * 0.6 + durationScore * 0.3 + sourceBoost`, finally
clamped by `Math.min(1, Math.max(0, score))`. -/
def scoreCandidate (candidate : LoopCandidate) : ScoredCandidate :=
  { toLoopCandidate := candidate
    score :=
      min 1 (max 0
        (candidate.similarity * 0.6 +
          (1 - |candidate.duration - 5| / 10) * 0.3 +
          (if candidate.source = "gemini" then 0.1 else 0))) }

/-- The comparator of `_rankLoopCandidates`:
`(a, b) => b.score - a.score` sorts descending by score.  JavaScript's
`Array.prototype.sort` is stable, so the result is the unique stable
descending-by-score ordering, which the stable insertion sort below with
this total preorder also produces. -/
def scoreGe (a b : ScoredCandidate) : Prop := b.score ≤ a.score

instance : DecidableRel scoreGe :=
  fun a b => inferInstanceAs (Decidable (b.score ≤ a.score))

instance : IsTotal ScoredCandidate scoreGe :=
  ⟨fun a b => le_total b.score a.score⟩

instance : IsTrans ScoredCandidate scoreGe :=
  ⟨fun _ _ _ hab hbc => le_trans hbc hab⟩

/-- `_rankLoopCandidates`: map each candidate to its scored copy, then sort
descending by score (stably). -/
def rankLoopCandidates (candidates : List LoopCandidate) : List ScoredCandidate :=
  (candidates.map scoreCandidate).insertionSort scoreGe

lemma scoreCandidate_toLoopCandidate (c : LoopCandidate) :
    (scoreCandidate c).toLoopCandidate = c := rfl

lemma mem_rankLoopCandidates {cs : List LoopCandidate} {x : ScoredCandidate} :
    x ∈ rankLoopCandidates cs ↔ x ∈ cs.map scoreCandidate :=
  List.mem_insertionSort scoreGe

lemma scoreCandidate_score_bounds (c : LoopCandidate) :
    0 ≤ (scoreCandidate c).score ∧ (scoreCandidate c).score ≤ 1 := by
  unfold scoreCandidate
  constructor
  · exact le_min zero_le_one (le_max_left 0 _)
  · exact min_le_left 1 _

/-- The score of claim C3, modelled from the spec's words: `durationFit`
truncated at 0 (`max(0, 1 - |duration - idealDuration| / (2 *
idealDuration))` with `idealDuration = 5`), for comparison with the
source's `scoreCandidate`. -/
def specScore (c : LoopCandidate) : ℚ :=
  min 1 (max 0
    (0.6 * c.similarity +
      0.3 * max 0 (1 - |c.duration - 5| / (2 * 5)) +
      (if c.source = "gemini" then 0.1 else 0)))

/-- An advisory candidate far longer (20 s) than the ideal duration, whose
`durationScore` is the negative value `-1/2`. -/
def longCandidate : LoopCandidate :=
  { startFrame := 0, endFrame := 600, startTime := 0, endTime := 20,
    duration := 20, similarity := 1, source := "gemini",
    transitionType := "crossfade" }

lemma scoreCandidate_longCandidate :
    (scoreCandidate longCandidate).score = 11 / 20 := by
  have habs : |(20 : ℚ) - 5| = 15 := by
    rw [abs_of_nonneg] <;> norm_num
  norm_num [scoreCandidate, longCandidate, habs, min_def, max_def]

/-- Counterexample to C3: for `longCandidate` the ranker computes score
`0.55` (since `durationScore = 1 - 15/10 = -1/2` is *not* truncated at 0
before weighting), whereas the claimed formula with
`durationFit = max(0, ...)` yields `0.7`. -/
theorem ranker_score_formula_cex :
    (rankLoopCandidates [longCandidate]).map ScoredCandidate.score
      = [11 / 20] ∧
    specScore longCandidate = 7 / 10 ∧
    (11 / 20 : ℚ) ≠ 7 / 10 := by
  refine ⟨?_, ?_, by norm_num⟩
  · rw [show rankLoopCandidates [longCandidate] = [scoreCandidate longCandidate]
        from rfl]
    rw [List.map_singleton, scoreCandidate_longCandidate]
  · have habs : |(20 : ℚ) - 5| = 15 := by
      rw [abs_of_nonneg] <;> norm_num
    norm_num [specScore, longCandidate, habs, min_def, max_def]

/-- C3 (amended): the ranker assigns
`score = clamp₀¹(0.6 * similarity + 0.3 * durationScore + sourceBoost)`
with `durationScore = 1 - |duration - 5| / 10` — *not* truncated at 0 —
the ideal duration hard-coded at 5 s, and `sourceBoost = 0.1` exactly for
advisory (`gemini`) candidates; every ranked score lies in `[0, 1]`. -/
theorem ranker_score_formula (cs : List LoopCandidate) :
    ∀ x ∈ rankLoopCandidates cs,
      x.score = min 1 (max 0
        (0.6 * x.similarity + 0.3 * (1 - |x.duration - 5| / 10) +
          (if x.source = "gemini" then 0.1 else 0))) ∧
      0 ≤ x.score ∧ x.score ≤ 1 := by
  intro x hx
  obtain ⟨c, _, rfl⟩ := List.mem_map.mp (mem_rankLoopCandidates.mp hx)
  refine ⟨?_, scoreCandidate_score_bounds c⟩
  show (scoreCandidate c).score = _
  unfold scoreCandidate
  exact congrArg (fun t => min 1 (max 0 t)) (by ring)

/-- Witness for C3 (amended), at the concrete candidate `longCandidate`
(the clamped score is `11/20`). -/
theorem ranker_score_formula_witness :
    (scoreCandidate longCandidate).score = min 1 (max 0
      (0.6 * (scoreCandidate longCandidate).similarity +
        0.3 * (1 - |(scoreCandidate longCandidate).duration - 5| / 10) +
        (if (scoreCandidate longCandidate).source = "gemini" then 0.1 else 0))) ∧
    0 ≤ (scoreCandidate longCandidate).score ∧
    (scoreCandidate longCandidate).score ≤ 1 :=
  ranker_score_formula [longCandidate] (scoreCandidate longCandidate)
    (mem_rankLoopCandidates.mpr (by simp))

/-- C9: the ranker is a pure enrich-and-permute: it returns a list of the
same length whose elements are a permutation of the input candidates, each
original candidate unchanged in every field and extended only with the
`score` field; the empty input yields the empty output (no error). -/
theorem ranker_permutation (cs : List LoopCandidate) :
    (rankLoopCandidates cs).length = cs.length ∧
    ((rankLoopCandidates cs).map (fun x => x.toLoopCandidate)).Perm cs ∧
    rankLoopCandidates [] = [] ∧
    ∀ x ∈ rankLoopCandidates cs, ∃ c ∈ cs,
      x = scoreCandidate c ∧ x.toLoopCandidate = c := by
  refine ⟨?_, ?_, rfl, ?_⟩
  · rw [rankLoopCandidates, List.length_insertionSort, List.length_map]
  · have hp := (List.perm_insertionSort scoreGe (cs.map scoreCandidate)).map
      (fun x => x.toLoopCandidate)
    rw [List.map_map] at hp
    have hid : ((fun x : ScoredCandidate => x.toLoopCandidate) ∘ scoreCandidate)
        = id := rfl
    rw [hid, List.map_id] at hp
    exact hp
  · intro x hx
    obtain ⟨c, hc, rfl⟩ := List.mem_map.mp (mem_rankLoopCandidates.mp hx)
    exact ⟨c, hc, rfl, rfl⟩

/-- Witness for C9 at the one-element list containing the advisory-derived
candidate of `plainSuggestion`. -/
theorem ranker_permutation_witness :
    ∃ c ∈ [suggestionToCandidate plainSuggestion],
      scoreCandidate (suggestionToCandidate plainSuggestion) = scoreCandidate c ∧
      (scoreCandidate (suggestionToCandidate plainSuggestion)).toLoopCandidate = c :=
  (ranker_permutation [suggestionToCandidate plainSuggestion]).2.2.2
    (scoreCandidate (suggestionToCandidate plainSuggestion))
    (mem_rankLoopCandidates.mpr (by simp))

lemma filter_score_orderedInsert (q : ℚ) (a : ScoredCandidate)
    (l : List ScoredCandidate) :
    (l.orderedInsert scoreGe a).filter (fun x => decide (x.score = q)) =
      if a.score = q then
        a :: l.filter (fun x => decide (x.score = q))
      else l.filter (fun x => decide (x.score = q)) := by
  induction l with
  | nil =>
    rw [List.orderedInsert, List.filter_cons]
    by_cases haq : a.score = q
    · simp [haq]
    · simp [haq]
  | cons b l ih =>
    rw [List.orderedInsert]
    by_cases hab : scoreGe a b
    · rw [if_pos hab, List.filter_cons]
      by_cases haq : a.score = q
      · simp [haq]
      · simp [haq]
    · rw [if_neg hab, List.filter_cons]
      have hlt : a.score < b.score := by
        have : ¬ b.score ≤ a.score := hab
        exact lt_of_not_le this
      by_cases hbq : b.score = q
      · have haq : ¬ a.score = q := by
          intro h
          rw [h, ← hbq] at hlt
          exact lt_irrefl _ hlt
        simp [hbq, haq, ih, List.filter_cons]
      · by_cases haq : a.score = q
        · simp [hbq, haq, ih, List.filter_cons]
        · simp [hbq, haq, ih, List.filter_cons]

lemma filter_score_insertionSort (q : ℚ) (l : List ScoredCandidate) :
    (l.insertionSort scoreGe).filter (fun x => decide (x.score = q)) =
      l.filter (fun x => decide (x.score = q)) := by
  induction l with
  | nil => rfl
  | cons a l ih =>
    rw [List.insertionSort, filter_score_orderedInsert, List.filter_cons]
    by_cases haq : a.score = q
    · simp [haq, ih]
    · simp [haq, ih]

/-- Two algorithm candidates with equal score `3/5` but different
similarities (`1/2` vs `3/5`): under the claimed ordering the more similar
one must come first on a tie. -/
def tieCandidateA : LoopCandidate :=
  { startFrame := 0, endFrame := 150, startTime := 0, endTime := 5,
    duration := 5, similarity := 1 / 2, source := "algorithm",
    transitionType := "crossfade" }

/-- See `tieCandidateA`: same score, larger similarity, shorter duration. -/
def tieCandidateB : LoopCandidate :=
  { startFrame := 0, endFrame := 90, startTime := 0, endTime := 3,
    duration := 3, similarity := 3 / 5, source := "algorithm",
    transitionType := "crossfade" }

lemma scoreCandidate_tieCandidateA :
    (scoreCandidate tieCandidateA).score = 3 / 5 := by
  simp only [scoreCandidate, tieCandidateA, String.reduceEq, if_false]
  norm_num [min_def, max_def]

lemma scoreCandidate_tieCandidateB :
    (scoreCandidate tieCandidateB).score = 3 / 5 := by
  have habs : |(3 : ℚ) - 5| = 2 := by
    rw [abs_of_nonpos] <;> norm_num
  simp only [scoreCandidate, tieCandidateB, String.reduceEq, if_false]
  norm_num [habs, min_def, max_def]

/-- Counterexample to C5: the ranker keeps the two equal-score candidates in
their input order (`similarity 1/2` first), although the claimed ordering
breaks the tie in favour of the larger similarity (`3/5`).  The comparator
sorts by score alone; no tie-breaking on similarity, source or duration
exists. -/
theorem ranker_tiebreak_cex :
    (rankLoopCandidates [tieCandidateA, tieCandidateB]).map
        (fun x => x.score) = [3 / 5, 3 / 5] ∧
    (rankLoopCandidates [tieCandidateA, tieCandidateB]).map
        (fun x => x.similarity) = [1 / 2, 3 / 5] ∧
    (1 / 2 : ℚ) < 3 / 5 := by
  have hrank : rankLoopCandidates [tieCandidateA, tieCandidateB]
      = [scoreCandidate tieCandidateA, scoreCandidate tieCandidateB] := by
    unfold rankLoopCandidates
    rw [List.map_cons, List.map_cons, List.map_nil,
      List.insertionSort, List.insertionSort, List.insertionSort]
    rw [List.orderedInsert, List.orderedInsert]
    rw [if_pos]
    show (scoreCandidate tieCandidateB).score ≤ (scoreCandidate tieCandidateA).score
    rw [scoreCandidate_tieCandidateA, scoreCandidate_tieCandidateB]
  refine ⟨?_, ?_, by norm_num⟩
  · rw [hrank, List.map_cons, List.map_cons, List.map_nil,
      scoreCandidate_tieCandidateA, scoreCandidate_tieCandidateB]
  · rw [hrank]
    rfl

/-- C5 (amended): the ranker's output is sorted descending by score, and
equal-score candidates keep their input order (the sort is stable); there
is no further tie-breaking by similarity, source, or duration deviation. -/
theorem ranker_ordering (cs : List LoopCandidate) :
    List.Sorted scoreGe (rankLoopCandidates cs) ∧
    ∀ q : ℚ, (rankLoopCandidates cs).filter (fun x => decide (x.score = q))
      = (cs.map scoreCandidate).filter (fun x => decide (x.score = q)) := by
  constructor
  · exact List.sorted_insertionSort scoreGe (cs.map scoreCandidate)
  · intro q
    exact filter_score_insertionSort q (cs.map scoreCandidate)

/-! ## Quality-metric assembly (`processMedia`) -/

/-- The `seamlessScore` field of `qualityMetrics` in the result object built
by `LoopOptimizer.processMedia`:
`seamlessScore: analysisResults.bestLoopPoint.score * 100` — a bare
multiplication, with no rounding. -/
def seamlessScore (bestLoopPoint : ScoredCandidate) : ℚ :=
  bestLoopPoint.score * 100

/-- A candidate whose ranked score is `117/200 = 0.585`, so that
`score * 100 = 58.5` is not an integer. -/
def halfScoreCandidate : LoopCandidate :=
  { startFrame := 0, endFrame := 135, startTime := 0, endTime := 9 / 2,
    duration := 9 / 2, similarity := 1 / 2, source := "algorithm",
    transitionType := "crossfade" }

lemma scoreCandidate_halfScoreCandidate :
    (scoreCandidate halfScoreCandidate).score = 117 / 200 := by
  have habs : |(9 / 2 : ℚ) - 5| = 1 / 2 := by
    rw [abs_of_nonpos] <;> norm_num
  have habs2 : |(1 : ℚ) / 2| = 1 / 2 := by
    rw [abs_of_nonneg]
    norm_num
  simp only [scoreCandidate, halfScoreCandidate, String.reduceEq, if_false]
  norm_num [habs, habs2, min_def, max_def]

/-- Counterexample to C8: for the top-ranked candidate obtained from
`halfScoreCandidate`, the assembled `seamlessScore` is `58.5` — the raw
product `score * 100` — whereas `round(score * 100) = 59`; the code does
not round, so the result need not be an integer. -/
theorem seamlessScore_notRounded_cex :
    (rankLoopCandidates [halfScoreCandidate]).map seamlessScore
      = [117 / 2] ∧
    round ((117 : ℚ) / 200 * 100) = 59 ∧
    ((117 : ℚ) / 2) ≠ ((59 : ℤ) : ℚ) := by
  refine ⟨?_, ?_, by norm_num⟩
  · rw [show rankLoopCandidates [halfScoreCandidate]
        = [scoreCandidate halfScoreCandidate] from rfl]
    rw [List.map_singleton]
    rw [seamlessScore, scoreCandidate_halfScoreCandidate]
    norm_num
  · rw [round_eq]
    norm_num

/-- C8 (amended): the assembled `seamlessScore` equals `score * 100` exactly
(no rounding); since every ranked score lies in `[0, 1]`, the value lies
in `[0, 100]`, but it need not be an integer. -/
theorem seamlessScore_bounds (cs : List LoopCandidate) :
    ∀ x ∈ rankLoopCandidates cs,
      seamlessScore x = x.score * 100 ∧
      0 ≤ seamlessScore x ∧ seamlessScore x ≤ 100 := by
  intro x hx
  obtain ⟨c, _, rfl⟩ := List.mem_map.mp (mem_rankLoopCandidates.mp hx)
  obtain ⟨h0, h1⟩ := scoreCandidate_score_bounds c
  refine ⟨rfl, ?_, ?_⟩
  · unfold seamlessScore
    positivity
  · unfold seamlessScore
    nlinarith

/-- Witness for C8 (amended) at the concrete top candidate of
`halfScoreCandidate` (`seamlessScore = 58.5`). -/
theorem seamlessScore_bounds_witness :
    seamlessScore (scoreCandidate halfScoreCandidate)
      = (scoreCandidate halfScoreCandidate).score * 100 ∧
    0 ≤ seamlessScore (scoreCandidate halfScoreCandidate) ∧
    seamlessScore (scoreCandidate halfScoreCandidate) ≤ 100 :=
  seamlessScore_bounds [halfScoreCandidate] (scoreCandidate halfScoreCandidate)
    (mem_rankLoopCandidates.mpr (by simp))

/-! ## Transition selection (`TransitionEngine.calculateOptimalTransition`) -/

/-- The similarity-driven decision chain of
`TransitionEngine.calculateOptimalTransition`, as a function of the
computed content similarity (in the source the similarity argument comes
from `_calculateContentSimilarity`, a placeholder returning `0.8`; the
chain itself is the decision logic the specification describes):

`similarity > 0.9` → (`similarity > 0.95` ? `none`/0 : `crossfade`/0.2);
else `similarity > 0.7` → `crossfade`/0.5;
else `similarity > 0.4` → `crossfade`/1.0;
else → `morph`/1.5. -/
def calculateOptimalTransition (similarity : ℚ) : String × ℚ :=
  if 0.9 < similarity then
    if 0.95 < similarity then ("none", 0) else ("crossfade", 0.2)
  else if 0.7 < similarity then ("crossfade", 0.5)
  else if 0.4 < similarity then ("crossfade", 1.0)
  else ("morph", 1.5)

/-- The decision table of claim C4, modelled from the spec's words, with
each dashed range read lower-inclusively so that the table is total (the
spec's own `< 0.40` row forces `0.40` into the `0.40–0.70` row): for
comparison with the source's `calculateOptimalTransition`. -/
def specTransitionTable (similarity : ℚ) : String × ℚ :=
  if 0.95 < similarity then ("none", 0)
  else if 0.9 ≤ similarity then ("crossfade", 0.2)
  else if 0.7 ≤ similarity then ("crossfade", 0.5)
  else if 0.4 ≤ similarity then ("crossfade", 1.0)
  else ("morph", 1.5)

/-- Counterexample to C4: at similarity exactly `0.40` the source selects
`morph` with duration `1.5` s, while the claimed table — whose `morph` row
covers only `similarity < 0.40` — requires `crossfade` with `1.0` s. -/
theorem transition_boundary_cex :
    calculateOptimalTransition (2 / 5) = ("morph", 1.5) ∧
    specTransitionTable (2 / 5) = ("crossfade", 1.0) ∧
    ¬ ((2 / 5 : ℚ) < 2 / 5) ∧
    (("morph", (1.5 : ℚ))) ≠ (("crossfade", (1.0 : ℚ))) := by
  refine ⟨?_, ?_, by norm_num, ?_⟩
  · unfold calculateOptimalTransition
    rw [if_neg (by norm_num), if_neg (by norm_num), if_neg (by norm_num)]
  · unfold specTransitionTable
    rw [if_neg (by norm_num), if_neg (by norm_num), if_neg (by norm_num),
      if_pos (by norm_num)]
  · intro h
    exact absurd (congrArg Prod.fst h) (by decide)

/-- C4 (amended): the transition selector follows the similarity decision
table with lower-exclusive / upper-inclusive ranges:
`> 0.95` → none/cut, 0 s; `(0.90, 0.95]` → crossfade, 0.2 s;
`(0.70, 0.90]` → crossfade, 0.5 s; `(0.40, 0.70]` → crossfade, 1.0 s;
`≤ 0.40` → morph, 1.5 s. -/
theorem transition_decision_table (s : ℚ) :
    (0.95 < s → calculateOptimalTransition s = ("none", 0)) ∧
    (0.9 < s → s ≤ 0.95 → calculateOptimalTransition s = ("crossfade", 0.2)) ∧
    (0.7 < s → s ≤ 0.9 → calculateOptimalTransition s = ("crossfade", 0.5)) ∧
    (0.4 < s → s ≤ 0.7 → calculateOptimalTransition s = ("crossfade", 1.0)) ∧
    (s ≤ 0.4 → calculateOptimalTransition s = ("morph", 1.5)) := by
  unfold calculateOptimalTransition
  refine ⟨?_, ?_, ?_, ?_, ?_⟩
  · intro h
    rw [if_pos (by linarith), if_pos h]
  · intro h1 h2
    rw [if_pos h1, if_neg (by linarith)]
  · intro h1 h2
    rw [if_neg (by linarith), if_pos h1]
  · intro h1 h2
    rw [if_neg (by linarith), if_neg (by linarith), if_pos h1]
  · intro h
    rw [if_neg (by linarith), if_neg (by linarith), if_neg (by linarith)]

/-- Witness for C4 (amended): each row of the table evaluated at a concrete
similarity (`0.96`, `0.92`, `0.8`, `0.5`, `0.2`). -/
theorem transition_decision_table_witness :
    calculateOptimalTransition 0.96 = ("none", 0) ∧
    calculateOptimalTransition 0.92 = ("crossfade", 0.2) ∧
    calculateOptimalTransition 0.8 = ("crossfade", 0.5) ∧
    calculateOptimalTransition 0.5 = ("crossfade", 1.0) ∧
    calculateOptimalTransition 0.2 = ("morph", 1.5) :=
  ⟨(transition_decision_table 0.96).1 (by norm_num),
   (transition_decision_table 0.92).2.1 (by norm_num) (by norm_num),
   (transition_decision_table 0.8).2.2.1 (by norm_num) (by norm_num),
   (transition_decision_table 0.5).2.2.2.1 (by norm_num) (by norm_num),
   (transition_decision_table 0.2).2.2.2.2 (by norm_num)⟩

/-! ## Boundary frame blending (frame blending service) -/

/-- `blendTwoFrames`: the per-pixel ffmpeg filter
`blend=all_expr=A*(1-alpha)+B*alpha`, where input `A` is the start-region
frame (`frame1Path = startFrame` in the source) and input `B` the
end-region frame; a frame is modelled as its list of pixel values. -/
def blendTwoFrames (frame1 frame2 : List ℚ) (alpha : ℚ) : List ℚ :=
  List.zipWith (fun a b => a * (1 - alpha) + b * alpha) frame1 frame2

/-- `createBlendedFrames`: throws (`Except.error`) when either frame
directory holds fewer than `frameCount` frames; otherwise output frame `i`
blends start frame `i` with end frame
`endFrames.length - frameCount + i` using
`alpha = i / (frameCount - 1)` ("Blend factor from 0 to 1" in the source).
Note: for `frameCount = 1` the source computes `0 / 0` (`NaN` in
JavaScript); the rational model is faithful only for `frameCount ≥ 2`. -/
def createBlendedFrames (startFrames endFrames : List (List ℚ))
    (frameCount : ℕ) : Except String (List (List ℚ)) :=
  if startFrames.length < frameCount ∨ endFrames.length < frameCount then
    Except.error "Not enough frames for blending"
  else
    Except.ok ((List.range frameCount).map fun i =>
      blendTwoFrames (startFrames.getD i [])
        (endFrames.getD (endFrames.length - frameCount + i) [])
        ((i : ℚ) / ((frameCount : ℚ) - 1)))

lemma zipWith_eq_left {F : ℚ → ℚ → ℚ} (hF : ∀ a b, F a b = a) :
    ∀ (f g : List ℚ), f.length = g.length → List.zipWith F f g = f
  | [], [], _ => rfl
  | [], _ :: _, h => by simp at h
  | _ :: _, [], h => by simp at h
  | a :: f, b :: g, h => by
    rw [List.zipWith_cons_cons, hF a b,
      zipWith_eq_left hF f g (by simpa using h)]

lemma zipWith_eq_right {F : ℚ → ℚ → ℚ} (hF : ∀ a b, F a b = b) :
    ∀ (f g : List ℚ), f.length = g.length → List.zipWith F f g = g
  | [], [], _ => rfl
  | [], _ :: _, h => by simp at h
  | _ :: _, [], h => by simp at h
  | a :: f, b :: g, h => by
    rw [List.zipWith_cons_cons, hF a b,
      zipWith_eq_right hF f g (by simpa using h)]

lemma blendTwoFrames_zero (f g : List ℚ) (h : f.length = g.length) :
    blendTwoFrames f g 0 = f :=
  zipWith_eq_left (fun a b => by ring) f g h

lemma blendTwoFrames_one (f g : List ℚ) (h : f.length = g.length) :
    blendTwoFrames f g 1 = g :=
  zipWith_eq_right (fun a b => by ring) f g h

/-- Counterexample to C7: blending two one-pixel start frames `[0], [0]`
with end frames `[1], [1]` at `blendUnitCount = 2` yields `[[0], [1]]`:
output unit 0 (weight 0) is the *start*-region unit `[0]`, not the
end-region unit `[1]` the claim requires, and output unit 1 (weight 1) is
the *end*-region unit — the claim has the two endpoint roles swapped. -/
theorem blend_orientation_cex :
    createBlendedFrames [[0], [0]] [[1], [1]] 2
      = Except.ok [[(0 : ℚ)], [1]] ∧
    [(0 : ℚ)] ≠ [(1 : ℚ)] := by
  constructor
  · rw [createBlendedFrames, if_neg (by norm_num)]
    rw [show List.range 2 = [0, 1] from rfl]
    rw [List.map_cons, List.map_cons, List.map_nil]
    norm_num [blendTwoFrames]
  · intro h
    have := List.head_eq_of_cons_eq h
    norm_num at this

/-- C7 (amended): for `blendUnitCount = n ≥ 2` (and enough frames of equal
pixel width), output unit `i` blends start-region unit `i` (weight
`1 - α`) with the corresponding end-region unit (weight `α`) where
`α = i / (n - 1)`; weight `α = 0` (unit 0) reproduces the original
start-region unit exactly and `α = 1` (unit `n - 1`) reproduces the
original end-region unit exactly. -/
theorem blend_endpoint_identities (startFrames endFrames : List (List ℚ))
    (n : ℕ) (hn : 2 ≤ n) (hs : n ≤ startFrames.length)
    (he : n ≤ endFrames.length)
    (hw : ∀ i, i < n → (startFrames.getD i []).length
        = (endFrames.getD (endFrames.length - n + i) []).length) :
    ∃ bs, createBlendedFrames startFrames endFrames n = Except.ok bs ∧
      bs.length = n ∧
      (∀ i, i < n → bs.getD i []
        = blendTwoFrames (startFrames.getD i [])
            (endFrames.getD (endFrames.length - n + i) [])
            ((i : ℚ) / ((n : ℚ) - 1))) ∧
      bs.getD 0 [] = startFrames.getD 0 [] ∧
      bs.getD (n - 1) [] = endFrames.getD (endFrames.length - 1) [] := by
  have hcond : ¬ (startFrames.length < n ∨ endFrames.length < n) := by omega
  refine ⟨_, by rw [createBlendedFrames, if_neg hcond], ?_, ?_, ?_, ?_⟩
  · simp
  · intro i hi
    exact getD_map_range _ n i [] hi
  · rw [getD_map_range _ n 0 [] (by omega)]
    rw [show ((0 : ℕ) : ℚ) / ((n : ℚ) - 1) = 0 by norm_num]
    exact blendTwoFrames_zero _ _ (hw 0 (by omega))
  · rw [getD_map_range _ n (n - 1) [] (by omega)]
    have hcast : (((n - 1 : ℕ)) : ℚ) = (n : ℚ) - 1 := by
      have h1 : 1 ≤ n := by omega
      push_cast [h1]
      ring
    have hne : (n : ℚ) - 1 ≠ 0 := by
      have : (2 : ℚ) ≤ (n : ℚ) := by exact_mod_cast hn
      intro hc
      rw [sub_eq_zero] at hc
      rw [hc] at this
      norm_num at this
    rw [hcast, div_self hne]
    have hidx : endFrames.length - n + (n - 1) = endFrames.length - 1 := by
      omega
    rw [hidx]
    exact blendTwoFrames_one _ _ (by
      have := hw (n - 1) (by omega)
      rwa [hidx] at this)

/-- Witness for C7 (amended) on one-pixel frames `[[3], [4]]` and
`[[5], [6]]` with `blendUnitCount = 2`. -/
theorem blend_endpoint_identities_witness :
    ∃ bs, createBlendedFrames [[3], [4]] [[5], [6]] 2 = Except.ok bs ∧
      bs.length = 2 ∧
      (∀ i, i < 2 → bs.getD i []
        = blendTwoFrames ([[(3 : ℚ)], [4]].getD i [])
            ([[(5 : ℚ)], [6]].getD ([[(5 : ℚ)], [6]].length - 2 + i) [])
            ((i : ℚ) / ((2 : ℚ) - 1))) ∧
      bs.getD 0 [] = [[(3 : ℚ)], [4]].getD 0 [] ∧
      bs.getD (2 - 1) [] = [[(5 : ℚ)], [6]].getD ([[(5 : ℚ)], [6]].length - 1) [] :=
  blend_endpoint_identities [[3], [4]] [[5], [6]] 2 (by norm_num)
    (by norm_num) (by norm_num)
    (by
      intro i hi
      interval_cases i <;> rfl)

/-! ## Frame sampling (`GeminiIntegration._sampleFrames`) -/

/-- `_sampleFrames`: returns the input unchanged when it has at most
`maxCount` frames; otherwise picks `frames[i * step]` for
`i = 0 … maxCount - 1` with `step = Math.floor(frames.length / maxCount)`.
The JS access `frames[i * step]` is always in bounds (proved below), so
the `getD` default is never used. -/
def sampleFrames {α : Type} [Inhabited α] (frames : List α) (maxCount : ℕ) :
    List α :=
  if frames.length ≤ maxCount then frames
  else
    (List.range maxCount).map fun i =>
      frames.getD (i * (frames.length / maxCount)) default

/-- C10: for positive `maxCount`, the sampler returns the input unchanged
when `frames.length ≤ maxCount`; otherwise it returns exactly `maxCount`
frames, element `i` being the input frame at index
`i * ⌊frames.length / maxCount⌋` (always in bounds), and the selected
indices are strictly increasing — the original order is preserved. -/
theorem sampleFrames_spec {α : Type} [Inhabited α] (frames : List α)
    (maxCount : ℕ) (hpos : 0 < maxCount) :
    (frames.length ≤ maxCount → sampleFrames frames maxCount = frames) ∧
    (maxCount < frames.length →
      (sampleFrames frames maxCount).length = maxCount ∧
      (∀ i, i < maxCount →
        i * (frames.length / maxCount) < frames.length ∧
        (sampleFrames frames maxCount)[i]?
          = frames[i * (frames.length / maxCount)]?) ∧
      (∀ i j, i < j → j < maxCount →
        i * (frames.length / maxCount) < j * (frames.length / maxCount))) := by
  constructor
  · intro hle
    rw [sampleFrames, if_pos hle]
  · intro hlt
    have hnle : ¬ frames.length ≤ maxCount := by omega
    have hstep : 1 ≤ frames.length / maxCount :=
      (Nat.one_le_div_iff hpos).mpr (le_of_lt hlt)
    have hmul : maxCount * (frames.length / maxCount) ≤ frames.length := by
      rw [mul_comm]
      exact Nat.div_mul_le_self _ _
    refine ⟨?_, ?_, ?_⟩
    · rw [sampleFrames, if_neg hnle]
      simp
    · intro i hi
      have hin : i * (frames.length / maxCount) < frames.length := by
        have h1 : i * (frames.length / maxCount)
            ≤ (maxCount - 1) * (frames.length / maxCount) :=
          Nat.mul_le_mul_right _ (by omega)
        have h2 : (maxCount - 1) * (frames.length / maxCount)
            = maxCount * (frames.length / maxCount)
              - (frames.length / maxCount) := by
          rw [Nat.sub_mul, one_mul]
        omega
      refine ⟨hin, ?_⟩
      rw [sampleFrames, if_neg hnle]
      rw [List.getElem?_map, List.getElem?_range hi]
      simp only [Option.map_some']
      rw [List.getD_eq_getElem?_getD, List.getElem?_eq_getElem hin]
      rfl
    · intro i j hij hj
      exact Nat.mul_lt_mul_of_lt_of_le hij (le_refl _) (by omega)

/-- Witness for C10: a 2-frame input with `maxCount = 3` is returned
unchanged, and a 7-frame input sampled to 3 frames picks indices
0, 2, 4 (step `⌊7/3⌋ = 2`). -/
theorem sampleFrames_spec_witness :
    sampleFrames [1, 2] 3 = [1, 2] ∧
    (sampleFrames [10, 20, 30, 40, 50, 60, 70] 3).length = 3 ∧
    (sampleFrames [10, 20, 30, 40, 50, 60, 70] 3)[2]?
      = [10, 20, 30, 40, 50, 60, 70][4]? :=
  ⟨(sampleFrames_spec [1, 2] 3 (by norm_num)).1 (by norm_num),
   ((sampleFrames_spec [10, 20, 30, 40, 50, 60, 70] 3 (by norm_num)).2
     (by norm_num)).1,
   (((sampleFrames_spec [10, 20, 30, 40, 50, 60, 70] 3 (by norm_num)).2
     (by norm_num)).2.1 2 (by norm_num)).2⟩
